import Mathlib

/-!
Verification of the collision-debug rendering core
(`src/render/draw_collision_debug.js`).

The development shallowly embeds the circle-batching pipeline of
`drawCollisionDebug`:

* the lazily built quad-template vertex/index buffers (typed-array writes,
  including JavaScript's silent discarding of out-of-bounds stores and the
  16-bit truncation of `Uint16Array` stores);
* the per-tile circle packing loop (`quadOffset` / `batchQuadIdx` /
  `batchSize`), which copies circle records from the bucket's flat
  `float32` view into the shared `quadProperties` scratch buffer and
  flushes fixed-capacity batches as draw calls;
* the matrix re-projection (`batchInvTransform`) and the optional
  translation of the tile position matrix shared by the box and circle
  paths.

Scalars are modelled with `ℚ` (the code only copies and multiplies the
values; no rounding behaviour is relied upon by any claim).  Machine
`uint16` stores keep the explicit `% 2 ^ 16`.
-/

set_option maxRecDepth 10000

namespace CollisionDebug

/-- 4×4 matrices as used by `gl-matrix` (`mat4`), with rational entries. -/
abbrev Mat4 := Matrix (Fin 4) (Fin 4) ℚ

/-- `mat4.multiply out a b`: ordinary matrix product, written entrywise as
the unrolled four-term sums of the `gl-matrix` implementation. -/
def mat4mul (a b : Mat4) : Mat4 :=
  Matrix.of fun r c => a r 0 * b 0 c + a r 1 * b 1 c + a r 2 * b 2 c + a r 3 * b 3 c

/-- Identity `mat4`, spelled out entrywise (`mat4.create()`). -/
def mat4id : Mat4 :=
  Matrix.of fun r c => if r = c then 1 else 0

/-- Affine translation matrix by `(tx, ty, 0)` (column-vector convention,
as `mat4.translate` composes it on the right). -/
def translationMat (tx ty : ℚ) : Mat4 :=
  Matrix.of fun r c =>
    if r = c then 1
    else if c = 3 then (if r = 0 then tx else if r = 1 then ty else 0)
    else 0

/-- `maxQuadsPerDrawCall` from the source: the uniform-vector budget
reserves 64 vec4 slots for quad properties. -/
def maxQuadsPerDrawCall : ℕ := 64

/-- `maxTrianglesPerDrawCall = maxQuadsPerDrawCall * 2`. -/
def maxTrianglesPerDrawCall : ℕ := maxQuadsPerDrawCall * 2

/-- `maxVerticesPerDrawCall = maxQuadsPerDrawCall * 4`. -/
def maxVerticesPerDrawCall : ℕ := maxQuadsPerDrawCall * 4

/-- One store into a `Uint16Array`: the value is truncated to 16 bits and
an out-of-bounds index leaves the array unchanged (`List.set` is a no-op
past the end, matching JavaScript typed-array semantics). -/
def u16set (l : List ℕ) (i v : ℕ) : List ℕ :=
  l.set i (v % 2 ^ 16)

/-- Body of the index-template loop (lines 80–89 of the source): iteration
`i` stores the six vertex indices of quad `i`'s two triangles at uint16
offsets `i*6 .. i*6+5`. -/
def indexTemplateStep (a : List ℕ) (i : ℕ) : List ℕ :=
  let idx := i * 6
  let a0 := u16set a (idx + 0) (i * 4 + 0)
  let a1 := u16set a0 (idx + 1) (i * 4 + 1)
  let a2 := u16set a1 (idx + 2) (i * 4 + 2)
  let a3 := u16set a2 (idx + 3) (i * 4 + 2)
  let a4 := u16set a3 (idx + 4) (i * 4 + 3)
  u16set a4 (idx + 5) (i * 4 + 0)

/-- Backing store of `StructArrayLayout3ui6` after `resize(maxTriangles)`
and `_trim()`: exactly `maxTrianglesPerDrawCall * 3` zero-initialised
uint16 entries. -/
def indexTemplateInit : List ℕ :=
  List.replicate (maxTrianglesPerDrawCall * 3) 0

/-- The index-template generation loop, run for `m` iterations. -/
def indexTemplateBuild (m : ℕ) : List ℕ :=
  (List.range m).foldl indexTemplateStep indexTemplateInit

/-- The contents of `layer.indexBuffer2`: the loop of the source runs for
`maxTrianglesPerDrawCall = 128` iterations. -/
def indexBuffer2 : List ℕ :=
  indexTemplateBuild maxTrianglesPerDrawCall

/-- Vertex index stored for quad `i` at slot `t` (`t < 6`): the two
triangles `(4i, 4i+1, 4i+2)` and `(4i+2, 4i+3, 4i)`. -/
def quadEntry (i t : ℕ) : ℕ :=
  match t with
  | 0 => 4 * i
  | 1 => 4 * i + 1
  | 2 => 4 * i + 2
  | 3 => 4 * i + 2
  | 4 => 4 * i + 3
  | _ => 4 * i

/-! ## The circle packing pipeline -/

/-- The `quadProperties` scratch buffer (`new Float32Array(maxQuadsPerDrawCall * 4)`),
modelled as a total map from float index to value; indices `≥ 256` are
never written (a `Float32Array` store past the end is discarded). -/
abbrev QuadProps := ℕ → ℚ

/-- The zero-initialised scratch buffer. -/
def qpZero : QuadProps := fun _ => 0

/-- One store into the 256-float scratch buffer. -/
def qpWrite (p : QuadProps) (i : ℕ) (v : ℚ) : QuadProps :=
  fun j => if j = i ∧ i < maxQuadsPerDrawCall * 4 then v else p j

/-- `anchor` argument of `painter.translatePosMatrix`. -/
inductive TranslateAnchor
  | map
  | viewport
deriving DecidableEq

/-- Modelled from the spec: `painter.translatePosMatrix` (the painter is an
out-of-scope collaborator; only its callers are in `src/`).  Per the spec it
translates the tile's position matrix by the configured offset pair, the
anchor flag selecting map-relative or viewport-relative interpretation of
the offset; a viewport-anchored offset is first rotated into map space by
the camera bearing (supplied here as its cosine/sine `angleCos`/`angleSin`).
The translation composes on the right, as `mat4.translate` does. -/
def translatePosMatrix (m : Mat4) (translate : ℚ × ℚ) (anchor : TranslateAnchor)
    (angleCos angleSin : ℚ) : Mat4 :=
  let t : ℚ × ℚ :=
    match anchor with
    | .map => translate
    | .viewport => (angleCos * translate.1 - angleSin * translate.2,
        angleSin * translate.1 + angleCos * translate.2)
  mat4mul m (translationMat t.1 t.2)

/-- The collision-box buffer set of a bucket (`textCollisionBox` /
`iconCollisionBox`); its GPU buffers are opaque to this core, so only an
identity is kept. -/
structure BoxBuffers where
  id : ℕ

/-- The slice of a `SymbolBucket` read by `drawCollisionDebug`:
`collisionCircleArrayTemp` is kept as its element count together with the
flat `float32` view (4 floats per circle: width, height, radius,
collisionFlag), plus the two stale placement matrices and the optional
box-buffer sets. -/
structure Bucket where
  circleLen : ℕ
  circleF32 : ℕ → ℚ
  placementInvProjMatrix : Mat4
  placementViewportMatrix : Mat4
  textCollisionBox : Option BoxBuffers
  iconCollisionBox : Option BoxBuffers

/-- A tile as seen by `drawCollisionDebug`: its `posMatrix` and the result
of `tile.getBucket(layer)` (which may be absent). -/
structure Tile where
  posMatrix : Mat4
  bucket : Option Bucket

/-- The position matrix used by both per-tile paths (lines 32–35 and
113–116 of the source): the tile's `coord.posMatrix`, run through
`painter.translatePosMatrix` when the translate offset is non-zero. -/
def tilePosMatrix (tile : Tile) (translate : ℚ × ℚ) (anchor : TranslateAnchor)
    (angleCos angleSin : ℚ) : Mat4 :=
  if translate.1 ≠ 0 ∨ translate.2 ≠ 0 then
    translatePosMatrix tile.posMatrix translate anchor angleCos angleSin
  else
    tile.posMatrix

/-- The re-projection matrix (lines 120–124): `mat4.mul` of the bucket's
stale inverse projection with the current `glCoordMatrix`, then `mat4.mul`
of the result with the bucket's stale viewport matrix. -/
def batchInvTransformOf (bucket : Bucket) (glCoordMatrix : Mat4) : Mat4 :=
  mat4mul (mat4mul bucket.placementInvProjMatrix glCoordMatrix)
    bucket.placementViewportMatrix

/-- One call to `program2.draw` of the circle path: the uniform payload
(both transforms and the scratch-buffer snapshot), the quad count of the
batch (`batchQuadIdx` at flush time) and the vertex/index window handed to
`SegmentVector.simpleSegment(0, 0, batchQuadIdx * 4, batchQuadIdx * 2)`. -/
structure DrawCall where
  transform : Mat4
  invTransform : Mat4
  quadProps : QuadProps
  quadCount : ℕ
  vertexLength : ℕ
  primitiveLength : ℕ

/-- Flush of the current batch as one draw call. -/
def mkDraw (bt bit : Mat4) (props : QuadProps) (b : ℕ) : DrawCall :=
  { transform := bt, invTransform := bit, quadProps := props, quadCount := b,
    vertexLength := b * 4, primitiveLength := b * 2 }

/-- The part of the uploaded scratch snapshot that the draw call's
vertex/index window actually consumes: the flat floats of its first
`quadCount` quads. -/
def uploadedQuadRegion (cl : DrawCall) : List ℚ :=
  (List.range (cl.quadCount * 4)).map cl.quadProps

/-- The inner copy loop (lines 135–141): copies `count` circle records of
4 floats each from the flat source view, starting at record `qIdx`, into
the scratch buffer at quad slot `b`, incrementing `batchQuadIdx` once per
record.  Returns the final scratch buffer and `batchQuadIdx`. -/
def copyLoop (arrF : ℕ → ℚ) (qIdx b count : ℕ) (props : QuadProps) : QuadProps × ℕ :=
  match count with
  | 0 => (props, b)
  | count' + 1 =>
      let p0 := qpWrite props (b * 4 + 0) (arrF (qIdx * 4 + 0))
      let p1 := qpWrite p0 (b * 4 + 1) (arrF (qIdx * 4 + 1))
      let p2 := qpWrite p1 (b * 4 + 2) (arrF (qIdx * 4 + 2))
      let p3 := qpWrite p2 (b * 4 + 3) (arrF (qIdx * 4 + 3))
      copyLoop arrF (qIdx + 1) (b + 1) count' p3

/-- The `while (quadOffset < arr.length)` loop (lines 129–175).  `fuel`
bounds the number of iterations the model is willing to take; `none` means
the iteration bound was exhausted (the concrete runs below always supply
enough fuel, which is exactly the termination argument).  On loop exit it
returns the accumulated draw calls, the scratch buffer and the in-flight
`batchQuadIdx`. -/
def packLoop (arrF : ℕ → ℚ) (n : ℕ) (bt bit : Mat4) :
    ℕ → ℕ → ℕ → QuadProps → List DrawCall → Option (List DrawCall × QuadProps × ℕ)
  | 0, quadOffset, b, props, acc =>
    if quadOffset < n then none else some (acc, props, b)
  | fuel' + 1, quadOffset, b, props, acc =>
    if quadOffset < n then
      let batchSize := min (n - quadOffset) (maxQuadsPerDrawCall - b)
      let r := copyLoop arrF quadOffset b batchSize props
      let quadOffset' := quadOffset + batchSize
      if r.2 = maxQuadsPerDrawCall then
        packLoop arrF n bt bit fuel' quadOffset' 0 r.1
          (acc ++ [mkDraw bt bit r.1 maxQuadsPerDrawCall])
      else
        packLoop arrF n bt bit fuel' quadOffset' r.2 r.1 acc
    else
      some (acc, props, b)

/-- The circle path for one tile (lines 102–205): skip when the bucket is
absent or its circle array is empty; otherwise compute the two batch
transforms, run the packing loop from `batchQuadIdx = quadOffset = 0`, and
flush the leftover batch when `batchQuadIdx` is non-zero. -/
def circleTile (glCoordMatrix : Mat4) (translate : ℚ × ℚ) (anchor : TranslateAnchor)
    (angleCos angleSin : ℚ) (tile : Tile) (props : QuadProps) :
    Option (List DrawCall × QuadProps) :=
  match tile.bucket with
  | none => some ([], props)
  | some bucket =>
      if bucket.circleLen = 0 then some ([], props)
      else
        let bt := tilePosMatrix tile translate anchor angleCos angleSin
        let bit := batchInvTransformOf bucket glCoordMatrix
        match packLoop bucket.circleF32 bucket.circleLen bt bit bucket.circleLen
            0 0 props [] with
        | none => none
        | some (calls, props', b) =>
            if b ≠ 0 then some (calls ++ [mkDraw bt bit props' b], props')
            else some (calls, props')

/-- One `program.draw` call of the box path. -/
structure BoxDrawCall where
  posMatrix : Mat4
  buffersId : ℕ

/-- The box path for one tile (lines 25–47): skip when the bucket is
absent or the selected collision-box buffer set is absent, else issue one
line draw call with the (optionally translated) position matrix. -/
def boxTile (translate : ℚ × ℚ) (anchor : TranslateAnchor) (angleCos angleSin : ℚ)
    (isText : Bool) (tile : Tile) : Option BoxDrawCall :=
  match tile.bucket with
  | none => none
  | some bucket =>
      match (if isText then bucket.textCollisionBox else bucket.iconCollisionBox) with
      | none => none
      | some buffers =>
          some { posMatrix := tilePosMatrix tile translate anchor angleCos angleSin,
                 buffersId := buffers.id }

/-- The circle-path tile loop, threading the shared scratch buffer through
all tiles. -/
def circleLoop (glCoordMatrix : Mat4) (translate : ℚ × ℚ) (anchor : TranslateAnchor)
    (angleCos angleSin : ℚ) : List Tile → QuadProps → Option (List DrawCall × QuadProps)
  | [], props => some ([], props)
  | tile :: tiles, props =>
      match circleTile glCoordMatrix translate anchor angleCos angleSin tile props with
      | none => none
      | some (calls, props') =>
          match circleLoop glCoordMatrix translate anchor angleCos angleSin tiles props' with
          | none => none
          | some (calls', props'') => some (calls ++ calls', props'')

/-- The whole of `drawCollisionDebug` for one frame: the box pass over all
tiles followed by the circle pass (the scratch buffer starts out
zero-initialised). -/
def drawCollisionDebug (glCoordMatrix : Mat4) (translate : ℚ × ℚ)
    (anchor : TranslateAnchor) (angleCos angleSin : ℚ) (isText : Bool)
    (tiles : List Tile) : List BoxDrawCall × Option (List DrawCall × QuadProps) :=
  (tiles.filterMap (boxTile translate anchor angleCos angleSin isText),
   circleLoop glCoordMatrix translate anchor angleCos angleSin tiles qpZero)

/-! ## Concrete sample inputs used by the witnesses -/

/-- A tile with 130 collision circles (the spec's three-batch scenario). -/
def bucketW : Bucket where
  circleLen := 130
  circleF32 := fun i => (i : ℚ)
  placementInvProjMatrix := mat4id
  placementViewportMatrix := mat4id
  textCollisionBox := some ⟨1⟩
  iconCollisionBox := none

/-- Tile wrapping `bucketW`. -/
def tileW : Tile where
  posMatrix := mat4id
  bucket := some bucketW

/-- A tile with a single collision circle and both box buffer sets. -/
def bucketC : Bucket where
  circleLen := 1
  circleF32 := fun _ => 0
  placementInvProjMatrix := mat4id
  placementViewportMatrix := mat4id
  textCollisionBox := some ⟨2⟩
  iconCollisionBox := some ⟨3⟩

/-- Tile wrapping `bucketC`. -/
def tileC : Tile where
  posMatrix := mat4id
  bucket := some bucketC

/-- A tile whose bucket lookup fails. -/
def tileN : Tile where
  posMatrix := mat4id
  bucket := none

/-! ## Template-generation lemmas -/

theorem u16set_length (l : List ℕ) (i v : ℕ) : (u16set l i v).length = l.length := by
  simp [u16set]

theorem u16set_oob (l : List ℕ) (i v : ℕ) (h : l.length ≤ i) : u16set l i v = l :=
  List.set_eq_of_length_le h

theorem u16set_getD_ne (l : List ℕ) (i v j : ℕ) (h : j ≠ i) :
    (u16set l i v).getD j 0 = l.getD j 0 := by
  by_cases hj : j < l.length
  · rw [u16set, List.getD_eq_getElem l 0 hj, List.getD_eq_getElem _ 0 (by simpa using hj),
      List.getElem_set_ne (fun he => h he.symm)]
  · rw [List.getD_eq_default _ 0 (by simpa [u16set] using Nat.le_of_not_lt hj),
      List.getD_eq_default _ 0 (Nat.le_of_not_lt hj)]

theorem u16set_getD_self (l : List ℕ) (i v : ℕ) (hi : i < l.length) (hv : v < 2 ^ 16) :
    (u16set l i v).getD i 0 = v := by
  rw [u16set, List.getD_eq_getElem _ 0 (by simpa using hi),
    List.getElem_set_self (by simpa using hi), Nat.mod_eq_of_lt hv]

theorem indexTemplateStep_length (l : List ℕ) (i : ℕ) :
    (indexTemplateStep l i).length = l.length := by
  simp [indexTemplateStep, u16set]

/-- Iterations whose six store addresses all fall past the end of the
array leave it unchanged (JavaScript discards out-of-bounds stores). -/
theorem indexTemplateStep_oob (l : List ℕ) (i : ℕ) (h : l.length ≤ i * 6) :
    indexTemplateStep l i = l := by
  simp only [indexTemplateStep]
  rw [u16set_oob l _ _ (by omega), u16set_oob l _ _ (by omega), u16set_oob l _ _ (by omega),
    u16set_oob l _ _ (by omega), u16set_oob l _ _ (by omega), u16set_oob l _ _ (by omega)]

theorem indexTemplateStep_getD_lt (l : List ℕ) (i j : ℕ) (h : j < i * 6) :
    (indexTemplateStep l i).getD j 0 = l.getD j 0 := by
  simp only [indexTemplateStep]
  rw [u16set_getD_ne _ _ _ _ (by omega), u16set_getD_ne _ _ _ _ (by omega),
    u16set_getD_ne _ _ _ _ (by omega), u16set_getD_ne _ _ _ _ (by omega),
    u16set_getD_ne _ _ _ _ (by omega), u16set_getD_ne _ _ _ _ (by omega)]

theorem indexTemplateStep_getD_self (l : List ℕ) (i t : ℕ) (hl : l.length = 384)
    (hi : i < 64) (ht : t < 6) :
    (indexTemplateStep l i).getD (i * 6 + t) 0 = quadEntry i t := by
  have h0 : (u16set l (i * 6 + 0) (i * 4 + 0)).length = 384 := by
    rw [u16set_length, hl]
  have h1 : (u16set (u16set l (i * 6 + 0) (i * 4 + 0)) (i * 6 + 1) (i * 4 + 1)).length
      = 384 := by rw [u16set_length, h0]
  have h2 : (u16set (u16set (u16set l (i * 6 + 0) (i * 4 + 0)) (i * 6 + 1) (i * 4 + 1))
      (i * 6 + 2) (i * 4 + 2)).length = 384 := by rw [u16set_length, h1]
  have h3 : (u16set (u16set (u16set (u16set l (i * 6 + 0) (i * 4 + 0)) (i * 6 + 1)
      (i * 4 + 1)) (i * 6 + 2) (i * 4 + 2)) (i * 6 + 3) (i * 4 + 2)).length = 384 := by
    rw [u16set_length, h2]
  have h4 : (u16set (u16set (u16set (u16set (u16set l (i * 6 + 0) (i * 4 + 0)) (i * 6 + 1)
      (i * 4 + 1)) (i * 6 + 2) (i * 4 + 2)) (i * 6 + 3) (i * 4 + 2)) (i * 6 + 4)
      (i * 4 + 3)).length = 384 := by rw [u16set_length, h3]
  interval_cases t <;>
    simp only [indexTemplateStep, quadEntry] <;>
    first
    | (rw [u16set_getD_ne _ _ _ _ (by omega), u16set_getD_ne _ _ _ _ (by omega),
        u16set_getD_ne _ _ _ _ (by omega), u16set_getD_ne _ _ _ _ (by omega),
        u16set_getD_ne _ _ _ _ (by omega),
        u16set_getD_self _ _ _ (by omega) (by omega)]; omega)
    | (rw [u16set_getD_ne _ _ _ _ (by omega), u16set_getD_ne _ _ _ _ (by omega),
        u16set_getD_ne _ _ _ _ (by omega), u16set_getD_ne _ _ _ _ (by omega),
        u16set_getD_self _ _ _ (by omega) (by omega)]; omega)
    | (rw [u16set_getD_ne _ _ _ _ (by omega), u16set_getD_ne _ _ _ _ (by omega),
        u16set_getD_ne _ _ _ _ (by omega),
        u16set_getD_self _ _ _ (by omega) (by omega)]; omega)
    | (rw [u16set_getD_ne _ _ _ _ (by omega), u16set_getD_ne _ _ _ _ (by omega),
        u16set_getD_self _ _ _ (by omega) (by omega)]; omega)
    | (rw [u16set_getD_ne _ _ _ _ (by omega),
        u16set_getD_self _ _ _ (by omega) (by omega)]; omega)
    | (rw [u16set_getD_self _ _ _ (by omega) (by omega)]; omega)

theorem indexTemplateBuild_succ (m : ℕ) :
    indexTemplateBuild (m + 1) = indexTemplateStep (indexTemplateBuild m) m := by
  rw [indexTemplateBuild, List.range_succ, List.foldl_append]
  rfl

theorem indexTemplateBuild_length (m : ℕ) : (indexTemplateBuild m).length = 384 := by
  induction m with
  | zero => simp [indexTemplateBuild, indexTemplateInit, maxTrianglesPerDrawCall,
      maxQuadsPerDrawCall]
  | succ m ih => rw [indexTemplateBuild_succ, indexTemplateStep_length, ih]

/-- Iterations 64 and beyond only address stores past the end of the
384-entry array, so they never change it. -/
theorem indexTemplateBuild_stable (k : ℕ) :
    indexTemplateBuild (64 + k) = indexTemplateBuild 64 := by
  induction k with
  | zero => rfl
  | succ k ih =>
      have : 64 + (k + 1) = (64 + k) + 1 := by omega
      rw [this, indexTemplateBuild_succ, indexTemplateStep_oob _ _
        (by rw [indexTemplateBuild_length]; omega), ih]

theorem indexTemplateBuild_getD (m i t : ℕ) (him : i < m) (hi : i < 64) (ht : t < 6) :
    (indexTemplateBuild m).getD (i * 6 + t) 0 = quadEntry i t := by
  induction m with
  | zero => omega
  | succ m ih =>
      rw [indexTemplateBuild_succ]
      rcases Nat.lt_or_ge i m with hlt | hge
      · rcases Nat.lt_or_ge m 64 with hm | hm
        · rw [indexTemplateStep_getD_lt _ _ _ (by omega), ih hlt]
        · rw [indexTemplateStep_oob _ _ (by rw [indexTemplateBuild_length]; omega), ih hlt]
      · have : i = m := by omega
        subst this
        exact indexTemplateStep_getD_self _ _ _ (indexTemplateBuild_length i) hi ht

theorem indexBuffer2_getD (i t : ℕ) (hi : i < 64) (ht : t < 6) :
    indexBuffer2.getD (i * 6 + t) 0 = quadEntry i t :=
  indexTemplateBuild_getD _ _ _
    (by unfold maxTrianglesPerDrawCall maxQuadsPerDrawCall; omega) hi ht

theorem indexBuffer2_length : indexBuffer2.length = 384 :=
  indexTemplateBuild_length _

/-! ## Scratch-buffer and copy-loop lemmas -/

theorem qpWrite_self (p : QuadProps) (i : ℕ) (v : ℚ) (h : i < 256) :
    qpWrite p i v i = v := by
  have : i < maxQuadsPerDrawCall * 4 := by
    unfold maxQuadsPerDrawCall; omega
  simp [qpWrite, this]

theorem qpWrite_ne (p : QuadProps) (i : ℕ) (v : ℚ) (j : ℕ) (h : j ≠ i) :
    qpWrite p i v j = p j := by
  simp [qpWrite, h]

theorem copyLoop_batchQuadIdx (arrF : ℕ → ℚ) (count : ℕ) :
    ∀ qIdx b props, (copyLoop arrF qIdx b count props).2 = b + count := by
  induction count with
  | zero => intro qIdx b props; simp [copyLoop]
  | succ count' ih =>
      intro qIdx b props
      simp only [copyLoop]
      rw [ih]
      omega

/-- Scratch cells below the batch's own region are untouched by the copy. -/
theorem copyLoop_read_lo (arrF : ℕ → ℚ) (count : ℕ) :
    ∀ qIdx b props i, i < b * 4 →
      (copyLoop arrF qIdx b count props).1 i = props i := by
  induction count with
  | zero => intro qIdx b props i _; simp [copyLoop]
  | succ count' ih =>
      intro qIdx b props i hi
      simp only [copyLoop]
      rw [ih _ _ _ _ (by omega), qpWrite_ne _ _ _ _ (by omega),
        qpWrite_ne _ _ _ _ (by omega), qpWrite_ne _ _ _ _ (by omega),
        qpWrite_ne _ _ _ _ (by omega)]

/-- Scratch cells at or above the copied region are untouched. -/
theorem copyLoop_read_hi (arrF : ℕ → ℚ) (count : ℕ) :
    ∀ qIdx b props i, (b + count) * 4 ≤ i →
      (copyLoop arrF qIdx b count props).1 i = props i := by
  induction count with
  | zero => intro qIdx b props i _; simp [copyLoop]
  | succ count' ih =>
      intro qIdx b props i hi
      simp only [copyLoop]
      rw [ih _ _ _ _ (by omega), qpWrite_ne _ _ _ _ (by omega),
        qpWrite_ne _ _ _ _ (by omega), qpWrite_ne _ _ _ _ (by omega),
        qpWrite_ne _ _ _ _ (by omega)]

/-- Record `qIdx + k` of the source lands, all four floats in order and
unchanged, at quad slot `b + k` of the scratch buffer. -/
theorem copyLoop_read_copied (arrF : ℕ → ℚ) (count : ℕ) :
    ∀ qIdx b props k c, b + count ≤ 64 → k < count → c < 4 →
      (copyLoop arrF qIdx b count props).1 ((b + k) * 4 + c) =
        arrF ((qIdx + k) * 4 + c) := by
  induction count with
  | zero => intro qIdx b props k c _ hk _; omega
  | succ count' ih =>
      intro qIdx b props k c hbc hk hc
      simp only [copyLoop]
      match k with
      | 0 =>
          rw [copyLoop_read_lo _ _ _ _ _ _ (by omega)]
          interval_cases c
          · simp only [Nat.add_zero]
            rw [qpWrite_ne _ _ _ _ (by omega), qpWrite_ne _ _ _ _ (by omega),
              qpWrite_ne _ _ _ _ (by omega), qpWrite_self _ _ _ (by omega)]
          · simp only [Nat.add_zero]
            rw [qpWrite_ne _ _ _ _ (by omega), qpWrite_ne _ _ _ _ (by omega),
              qpWrite_self _ _ _ (by omega)]
          · simp only [Nat.add_zero]
            rw [qpWrite_ne _ _ _ _ (by omega), qpWrite_self _ _ _ (by omega)]
          · simp only [Nat.add_zero]
            rw [qpWrite_self _ _ _ (by omega)]
      | k' + 1 =>
          have h1 : b + (k' + 1) = (b + 1) + k' := by omega
          have h2 : qIdx + (k' + 1) = (qIdx + 1) + k' := by omega
          rw [h1, h2, ih _ _ _ _ _ (by omega) (by omega) hc]

/-! ## The packing-loop characterisation -/

/-- Once `quadOffset` has reached the array length the loop stops,
whatever fuel is left. -/
theorem packLoop_exit (arrF : ℕ → ℚ) (n : ℕ) (bt bit : Mat4) (fuel quadOffset b : ℕ)
    (props : QuadProps) (acc : List DrawCall) (h : ¬ quadOffset < n) :
    packLoop arrF n bt bit fuel quadOffset b props acc = some (acc, props, b) := by
  cases fuel <;> simp [packLoop, h]

theorem packLoop_step (arrF : ℕ → ℚ) (n : ℕ) (bt bit : Mat4) (fuel' quadOffset b : ℕ)
    (props : QuadProps) (acc : List DrawCall) (h : quadOffset < n) :
    packLoop arrF n bt bit (fuel' + 1) quadOffset b props acc =
      (if (copyLoop arrF quadOffset b (min (n - quadOffset) (maxQuadsPerDrawCall - b))
            props).2 = maxQuadsPerDrawCall then
        packLoop arrF n bt bit fuel'
          (quadOffset + min (n - quadOffset) (maxQuadsPerDrawCall - b)) 0
          (copyLoop arrF quadOffset b (min (n - quadOffset) (maxQuadsPerDrawCall - b))
            props).1
          (acc ++ [mkDraw bt bit
            (copyLoop arrF quadOffset b (min (n - quadOffset) (maxQuadsPerDrawCall - b))
              props).1 maxQuadsPerDrawCall])
      else
        packLoop arrF n bt bit fuel'
          (quadOffset + min (n - quadOffset) (maxQuadsPerDrawCall - b))
          (copyLoop arrF quadOffset b (min (n - quadOffset) (maxQuadsPerDrawCall - b))
            props).2
          (copyLoop arrF quadOffset b (min (n - quadOffset) (maxQuadsPerDrawCall - b))
            props).1 acc) := by
  rw [packLoop, if_pos h]

/-- Full characterisation of the packing loop started with an empty
in-flight batch: it terminates within fuel `n - quadOffset`, emits one
64-quad draw call per full batch, leaves the partial remainder
`(n - quadOffset) % 64` in flight, and copies the circle records in
original array order. -/
theorem packLoop_run (arrF : ℕ → ℚ) (n : ℕ) (bt bit : Mat4) :
    ∀ fuel quadOffset props acc, quadOffset ≤ n → n - quadOffset ≤ fuel →
    ∃ calls props',
      packLoop arrF n bt bit fuel quadOffset 0 props acc
        = some (acc ++ calls, props', (n - quadOffset) % 64) ∧
      calls.length = (n - quadOffset) / 64 ∧
      (∀ cl ∈ calls, cl.transform = bt ∧ cl.invTransform = bit ∧ cl.quadCount = 64 ∧
        cl.vertexLength = cl.quadCount * 4 ∧ cl.primitiveLength = cl.quadCount * 2) ∧
      (∀ j (hj : j < calls.length) k c, k < 64 → c < 4 →
        (calls.get ⟨j, hj⟩).quadProps (k * 4 + c)
          = arrF ((quadOffset + 64 * j + k) * 4 + c)) ∧
      (∀ k c, k < (n - quadOffset) % 64 → c < 4 →
        props' (k * 4 + c)
          = arrF ((quadOffset + 64 * ((n - quadOffset) / 64) + k) * 4 + c)) := by
  intro fuel
  induction fuel with
  | zero =>
      intro quadOffset props acc hq hf
      have hqe : quadOffset = n := by omega
      subst hqe
      refine ⟨[], props, ?_, by simp, by simp, ?_, ?_⟩
      · rw [packLoop_exit _ _ _ _ _ _ _ _ _ (by omega)]
        simp
      · intro j hj
        exact absurd hj (by simp)
      · intro k c hk
        omega
  | succ fuel' ih =>
      intro quadOffset props acc hq hf
      by_cases hqn : quadOffset < n
      · rw [packLoop_step _ _ _ _ _ _ _ _ _ hqn]
        rcases Nat.lt_or_ge (n - quadOffset) 64 with hsmall | hbig
        · -- final partial batch: copy everything that is left, loop exits
          have hbs : min (n - quadOffset) (maxQuadsPerDrawCall - 0) = n - quadOffset := by
            unfold maxQuadsPerDrawCall; omega
          rw [hbs, copyLoop_batchQuadIdx, if_neg (by unfold maxQuadsPerDrawCall; omega)]
          have hq' : quadOffset + (n - quadOffset) = n := by omega
          rw [hq', packLoop_exit _ _ _ _ _ _ _ _ _ (by omega)]
          refine ⟨[], (copyLoop arrF quadOffset 0 (n - quadOffset) props).1, ?_,
            by simp; omega, by simp, ?_, ?_⟩
          · have h1 : 0 + (n - quadOffset) = (n - quadOffset) % 64 := by omega
            rw [List.append_nil, h1]
          · intro j hj
            exact absurd hj (by simp)
          · intro k c hk hc
            have h2 : (n - quadOffset) % 64 = n - quadOffset := by omega
            have h3 : quadOffset + 64 * ((n - quadOffset) / 64) + k = quadOffset + k := by
              omega
            rw [h3]
            have h4 := copyLoop_read_copied arrF (n - quadOffset) quadOffset 0 props k c
              (by omega) (by omega) hc
            simpa using h4
        · -- a full batch of 64 quads is copied and flushed, then the loop recurses
          have hbs : min (n - quadOffset) (maxQuadsPerDrawCall - 0) = 64 := by
            unfold maxQuadsPerDrawCall; omega
          rw [hbs, copyLoop_batchQuadIdx, if_pos (by unfold maxQuadsPerDrawCall; omega)]
          obtain ⟨calls', props', hrun, hlen, hmk, hcontent, hleft⟩ :=
            ih (quadOffset + 64)
              (copyLoop arrF quadOffset 0 64 props).1
              (acc ++ [mkDraw bt bit (copyLoop arrF quadOffset 0 64 props).1
                maxQuadsPerDrawCall])
              (by omega) (by omega)
          refine ⟨mkDraw bt bit (copyLoop arrF quadOffset 0 64 props).1
              maxQuadsPerDrawCall :: calls', props', ?_, ?_, ?_, ?_, ?_⟩
          · rw [hrun]
            have hmod : (n - (quadOffset + 64)) % 64 = (n - quadOffset) % 64 := by omega
            rw [hmod, List.append_assoc, List.singleton_append]
          · simp only [List.length_cons, hlen]
            omega
          · intro cl hcl
            rcases List.mem_cons.mp hcl with hcl | hcl
            · subst hcl; exact ⟨rfl, rfl, rfl, rfl, rfl⟩
            · exact hmk cl hcl
          · intro j hj k c hk hc
            match j with
            | 0 =>
                have h3 : quadOffset + 64 * 0 + k = quadOffset + k := by omega
                have h4 := copyLoop_read_copied arrF 64 quadOffset 0 props k c
                  (by omega) hk hc
                simp only [List.get, h3]
                simpa [mkDraw] using h4
            | j' + 1 =>
                have h5 : quadOffset + 64 * (j' + 1) + k = quadOffset + 64 + 64 * j' + k := by
                  omega
                have h6 := hcontent j' (by simpa using hj) k c hk hc
                simp only [List.get]
                rw [h5]
                exact h6
          · intro k c hk hc
            have hmod : (n - (quadOffset + 64)) % 64 = (n - quadOffset) % 64 := by omega
            have hdiv : quadOffset + 64 * ((n - quadOffset) / 64) + k
                = quadOffset + 64 + 64 * ((n - (quadOffset + 64)) / 64) + k := by omega
            rw [hdiv]
            exact hleft k c (by omega) hc
      · have hqe : quadOffset = n := by omega
        subst hqe
        refine ⟨[], props, ?_, by simp, by simp, ?_, ?_⟩
        · rw [packLoop_exit _ _ _ _ _ _ _ _ _ (by omega)]
          simp
        · intro j hj
          exact absurd hj (by simp)
        · intro k c hk
          omega

/-! ## Per-tile characterisation of the circle path -/

/-- Full behaviour of the circle path for one tile whose bucket is
present: `ceil(n / 64)` draw calls, all with the tile's two batch
transforms and a window of exactly `quadCount` quads; call `j` holds the
circles `64 j, … , 64 j + quadCount - 1` in original order; an empty
circle array produces no draw call and leaves the scratch buffer alone. -/
theorem circleTile_spec (glCoordMatrix : Mat4) (translate : ℚ × ℚ)
    (anchor : TranslateAnchor) (angleCos angleSin : ℚ) (tile : Tile) (bucket : Bucket)
    (props : QuadProps) (hb : tile.bucket = some bucket) :
    ∃ calls props',
      circleTile glCoordMatrix translate anchor angleCos angleSin tile props
        = some (calls, props') ∧
      calls.length = (bucket.circleLen + 63) / 64 ∧
      (∀ cl ∈ calls,
        cl.transform = tilePosMatrix tile translate anchor angleCos angleSin ∧
        cl.invTransform = batchInvTransformOf bucket glCoordMatrix ∧
        cl.vertexLength = cl.quadCount * 4 ∧ cl.primitiveLength = cl.quadCount * 2 ∧
        cl.quadCount ≤ 64) ∧
      (∀ j (hj : j < calls.length),
        (calls.get ⟨j, hj⟩).quadCount = min (bucket.circleLen - 64 * j) 64 ∧
        ∀ k c, k < (calls.get ⟨j, hj⟩).quadCount → c < 4 →
          (calls.get ⟨j, hj⟩).quadProps (k * 4 + c)
            = bucket.circleF32 ((64 * j + k) * 4 + c)) ∧
      (bucket.circleLen = 0 → calls = [] ∧ props' = props) := by
  simp only [circleTile, hb]
  by_cases h0 : bucket.circleLen = 0
  · rw [if_pos h0]
    refine ⟨[], props, rfl, by simp [h0], by simp, ?_, fun _ => ⟨rfl, rfl⟩⟩
    intro j hj
    exact absurd hj (by simp)
  · rw [if_neg h0]
    obtain ⟨fullCalls, fprops, hrun, hlen, hmk, hcontent, hleft⟩ :=
      packLoop_run bucket.circleF32 bucket.circleLen
        (tilePosMatrix tile translate anchor angleCos angleSin)
        (batchInvTransformOf bucket glCoordMatrix)
        bucket.circleLen 0 props [] (by omega) (by omega)
    rw [hrun]
    simp only [Nat.sub_zero, List.nil_append, Nat.zero_add] at hrun hlen hmk hcontent hleft ⊢
    by_cases hr : bucket.circleLen % 64 = 0
    · rw [if_neg (by omega)]
      refine ⟨fullCalls, fprops, rfl, by omega, ?_, ?_, fun he => absurd he h0⟩
      · intro cl hcl
        obtain ⟨h1, h2, h3, h4, h5⟩ := hmk cl hcl
        exact ⟨h1, h2, h4, h5, by omega⟩
      · intro j hj
        obtain ⟨h1, h2, h3, h4, h5⟩ := hmk _ (List.get_mem fullCalls j hj)
        constructor
        · rw [h3]
          have : 64 * j + 64 ≤ bucket.circleLen := by
            rw [hlen] at hj
            omega
          omega
        · intro k c hk hc
          rw [h3] at hk
          exact hcontent j hj k c hk hc
    · rw [if_pos (by omega)]
      set d := mkDraw (tilePosMatrix tile translate anchor angleCos angleSin)
        (batchInvTransformOf bucket glCoordMatrix) fprops
        (bucket.circleLen % 64) with hd
      refine ⟨fullCalls ++ [d], fprops, rfl, by simp [hlen]; omega, ?_, ?_,
        fun he => absurd he h0⟩
      · intro cl hcl
        rcases List.mem_append.mp hcl with hcl | hcl
        · obtain ⟨h1, h2, h3, h4, h5⟩ := hmk cl hcl
          exact ⟨h1, h2, h4, h5, by omega⟩
        · have : cl = d := by simpa using hcl
          subst this
          refine ⟨rfl, rfl, rfl, rfl, ?_⟩
          have hq : d.quadCount = bucket.circleLen % 64 := rfl
          omega
      · intro j hj
        rcases Nat.lt_or_ge j fullCalls.length with hjf | hjf
        · have hget : (fullCalls ++ [d]).get ⟨j, hj⟩ = fullCalls.get ⟨j, hjf⟩ := by
            rw [List.get_eq_getElem, List.get_eq_getElem, List.getElem_append_left hjf]
          rw [hget]
          obtain ⟨h1, h2, h3, h4, h5⟩ := hmk _ (List.get_mem fullCalls j hjf)
          constructor
          · rw [h3]
            have : 64 * j + 64 ≤ bucket.circleLen := by
              rw [hlen] at hjf
              omega
            omega
          · intro k c hk hc
            rw [h3] at hk
            exact hcontent j hjf k c hk hc
        · have hje : j = fullCalls.length := by
            have := hj
            simp only [List.length_append, List.length_cons, List.length_nil] at this
            omega
          have hget : (fullCalls ++ [d]).get ⟨j, hj⟩ = d := by
            rw [List.get_eq_getElem, List.getElem_append_right hjf]
            simp [hje]
          rw [hget]
          constructor
          · have : d.quadCount = bucket.circleLen % 64 := rfl
            rw [this, hje, hlen]
            omega
          · intro k c hk hc
            have hkr : k < bucket.circleLen % 64 := hk
            have h6 := hleft k c hkr hc
            have h7 : d.quadProps = fprops := rfl
            have h8 : 64 * j + k = 64 * (bucket.circleLen / 64) + k := by
              rw [hje, hlen]
            rw [h7, h8]
            exact h6

/-- The per-index batch sizes `min (n - 64 j) 64` spell out to the list
`[64, …, 64, n % 64]` (with the partial entry only when `n % 64 ≠ 0`). -/
theorem quadCount_map_eq (n : ℕ) (calls : List DrawCall)
    (hlen : calls.length = (n + 63) / 64)
    (hq : ∀ j (hj : j < calls.length), (calls.get ⟨j, hj⟩).quadCount = min (n - 64 * j) 64) :
    calls.map DrawCall.quadCount
      = List.replicate (n / 64) 64 ++ (if n % 64 = 0 then [] else [n % 64]) := by
  by_cases hr : n % 64 = 0
  · rw [if_pos hr, List.append_nil]
    apply List.ext_getElem
    · simp only [List.length_map, List.length_replicate, hlen]
      omega
    · intro j h1 h2
      rw [List.getElem_map, List.getElem_replicate]
      have hq' := hq j (by simpa using h1)
      rw [List.get_eq_getElem] at hq'
      rw [hq']
      have hjlt : j < n / 64 := by simpa using h2
      omega
  · rw [if_neg hr]
    apply List.ext_getElem
    · simp only [List.length_map, List.length_append, List.length_replicate,
        List.length_cons, List.length_nil, hlen]
      omega
    · intro j h1 h2
      rw [List.getElem_map]
      have hq' := hq j (by simpa using h1)
      rw [List.get_eq_getElem] at hq'
      rw [hq']
      have h2' : j < n / 64 + 1 := by simpa using h2
      rcases Nat.lt_or_ge j (n / 64) with hj | hj
      · rw [List.getElem_append_left (by simpa using hj)]
        rw [List.getElem_replicate]
        omega
      · have hje : j = n / 64 := by omega
        rw [List.getElem_append_right (by simpa using hj)]
        simp only [List.length_replicate, hje, Nat.sub_self, List.getElem_cons_zero]
        omega

/-! ## Claim theorems -/

/-- C1: for every tile whose collision-circle array has length `n ≥ 0`,
the circle path issues exactly `⌈n / 64⌉` draw calls (`(n + 63) / 64`,
hence 0 when `n = 0`), with batch sizes 64 for each full batch followed by
one partial batch of `n % 64` when `n % 64 > 0`, and the batches hold the
circle records in original array order (batch `j`, slot `k` holds circle
`64 j + k`). -/
theorem circle_path_draw_call_count_and_sizes
    (glCoordMatrix : Mat4) (translate : ℚ × ℚ) (anchor : TranslateAnchor)
    (angleCos angleSin : ℚ) (tile : Tile) (bucket : Bucket) (props : QuadProps)
    (hb : tile.bucket = some bucket) :
    ∃ calls props',
      circleTile glCoordMatrix translate anchor angleCos angleSin tile props
        = some (calls, props') ∧
      calls.length = (bucket.circleLen + 63) / 64 ∧
      calls.map DrawCall.quadCount
        = List.replicate (bucket.circleLen / 64) 64
          ++ (if bucket.circleLen % 64 = 0 then [] else [bucket.circleLen % 64]) ∧
      ∀ j (hj : j < calls.length) k c, k < (calls.get ⟨j, hj⟩).quadCount → c < 4 →
        (calls.get ⟨j, hj⟩).quadProps (k * 4 + c)
          = bucket.circleF32 ((64 * j + k) * 4 + c) := by
  obtain ⟨calls, props', heq, hlen, _, hidx, _⟩ :=
    circleTile_spec glCoordMatrix translate anchor angleCos angleSin tile bucket props hb
  exact ⟨calls, props', heq, hlen,
    quadCount_map_eq bucket.circleLen calls hlen (fun j hj => (hidx j hj).1),
    fun j hj k c hk hc => (hidx j hj).2 k c hk hc⟩

/-- Witness for C1: the 130-circle tile (3 draw calls of sizes 64, 64, 2). -/
theorem circle_path_draw_call_count_and_sizes_witness :
    tileW.bucket = some bucketW ∧
    ∃ calls props',
      circleTile mat4id (0, 0) TranslateAnchor.map 1 0 tileW qpZero
        = some (calls, props') ∧
      calls.length = (bucketW.circleLen + 63) / 64 ∧
      calls.map DrawCall.quadCount
        = List.replicate (bucketW.circleLen / 64) 64
          ++ (if bucketW.circleLen % 64 = 0 then [] else [bucketW.circleLen % 64]) ∧
      ∀ j (hj : j < calls.length) k c, k < (calls.get ⟨j, hj⟩).quadCount → c < 4 →
        (calls.get ⟨j, hj⟩).quadProps (k * 4 + c)
          = bucketW.circleF32 ((64 * j + k) * 4 + c) :=
  ⟨rfl, circle_path_draw_call_count_and_sizes mat4id (0, 0) TranslateAnchor.map 1 0
    tileW bucketW qpZero rfl⟩

/-- C2: in the quad-template index buffer, the two triangles stored for
quad `i` reference exactly the vertex triples `(4i, 4i+1, 4i+2)` and
`(4i+2, 4i+3, 4i)` for every `i < 64`, and the buffer holds
`maxQuadsPerDrawCall * 2 = 128` triangles (384 uint16 entries). -/
theorem quad_template_index_buffer_triangles :
    indexBuffer2.length = maxQuadsPerDrawCall * 2 * 3 ∧
    ∀ i, i < 64 →
      indexBuffer2.getD (i * 6 + 0) 0 = 4 * i ∧
      indexBuffer2.getD (i * 6 + 1) 0 = 4 * i + 1 ∧
      indexBuffer2.getD (i * 6 + 2) 0 = 4 * i + 2 ∧
      indexBuffer2.getD (i * 6 + 3) 0 = 4 * i + 2 ∧
      indexBuffer2.getD (i * 6 + 4) 0 = 4 * i + 3 ∧
      indexBuffer2.getD (i * 6 + 5) 0 = 4 * i := by
  refine ⟨by rw [indexBuffer2_length]; rfl, ?_⟩
  intro i hi
  exact ⟨indexBuffer2_getD i 0 hi (by omega), indexBuffer2_getD i 1 hi (by omega),
    indexBuffer2_getD i 2 hi (by omega), indexBuffer2_getD i 3 hi (by omega),
    indexBuffer2_getD i 4 hi (by omega), indexBuffer2_getD i 5 hi (by omega)⟩

/-- Witness for C2 at quad `i = 2`. -/
theorem quad_template_index_buffer_triangles_witness :
    2 < 64 ∧
    (indexBuffer2.getD (2 * 6 + 0) 0 = 4 * 2 ∧
      indexBuffer2.getD (2 * 6 + 1) 0 = 4 * 2 + 1 ∧
      indexBuffer2.getD (2 * 6 + 2) 0 = 4 * 2 + 2 ∧
      indexBuffer2.getD (2 * 6 + 3) 0 = 4 * 2 + 2 ∧
      indexBuffer2.getD (2 * 6 + 4) 0 = 4 * 2 + 3 ∧
      indexBuffer2.getD (2 * 6 + 5) 0 = 4 * 2) :=
  ⟨by decide, quad_template_index_buffer_triangles.2 2 (by decide)⟩

theorem quadEntry_le (i t : ℕ) : quadEntry i t ≤ 4 * i + 3 := by
  rcases t with _ | _ | _ | _ | _ | t' <;> simp [quadEntry]

/-- C10: every triangle entry actually stored in the 128-triangle index
template references a vertex index below `maxVerticesPerDrawCall = 256`;
this holds although the generation loop runs 128 iterations writing two
triangles each, because the out-of-range iterations change nothing (the
fold over 128 iterations equals the fold over the first 64) and an
out-of-bounds uint16 store leaves the array unchanged. -/
theorem index_template_writes_stay_in_range :
    (∀ k, k < maxQuadsPerDrawCall * 2 * 3 →
      indexBuffer2.getD k 0 < maxVerticesPerDrawCall) ∧
    indexTemplateBuild (maxQuadsPerDrawCall * 2) = indexTemplateBuild maxQuadsPerDrawCall ∧
    (∀ (l : List ℕ) i v, l.length ≤ i → u16set l i v = l) := by
  refine ⟨?_, ?_, fun l i v h => u16set_oob l i v h⟩
  · intro k hk
    have hc : maxQuadsPerDrawCall * 2 * 3 = 384 := rfl
    have hk' : k < 384 := by omega
    have hdecomp : k = (k / 6) * 6 + k % 6 := by omega
    have h1 : k / 6 < 64 := by omega
    have h2 : k % 6 < 6 := by omega
    rw [hdecomp, indexBuffer2_getD _ _ h1 h2]
    have h3 := quadEntry_le (k / 6) (k % 6)
    have h4 : maxVerticesPerDrawCall = 256 := rfl
    omega
  · have h128 : maxQuadsPerDrawCall * 2 = 64 + 64 := rfl
    have h64 : maxQuadsPerDrawCall = 64 := rfl
    rw [h128, h64]
    exact indexTemplateBuild_stable 64

/-- Witness for C10 at entry 100 and a concrete out-of-bounds store. -/
theorem index_template_writes_stay_in_range_witness :
    (100 < maxQuadsPerDrawCall * 2 * 3 ∧ indexBuffer2.getD 100 0 < maxVerticesPerDrawCall) ∧
    (([5, 6] : List ℕ).length ≤ 7 ∧ u16set [5, 6] 7 9 = [5, 6]) :=
  ⟨⟨by decide, index_template_writes_stay_in_range.1 100 (by decide)⟩,
   ⟨by decide, index_template_writes_stay_in_range.2.2 [5, 6] 7 9 (by decide)⟩⟩

/-- The circle path always produces a result for every tile (the fuel
`bucket.circleLen` always suffices). -/
theorem circleTile_total (glCoordMatrix : Mat4) (translate : ℚ × ℚ)
    (anchor : TranslateAnchor) (angleCos angleSin : ℚ) (tile : Tile) (props : QuadProps) :
    ∃ result, circleTile glCoordMatrix translate anchor angleCos angleSin tile props
      = some result := by
  rcases htb : tile.bucket with _ | bucket
  · exact ⟨([], props), by simp [circleTile, htb]⟩
  · obtain ⟨calls, props2, heq, _⟩ :=
      circleTile_spec glCoordMatrix translate anchor angleCos angleSin tile bucket props htb
    exact ⟨(calls, props2), heq⟩

/-- The circle pass over a whole tile list always produces a result. -/
theorem circleLoop_total (glCoordMatrix : Mat4) (translate : ℚ × ℚ)
    (anchor : TranslateAnchor) (angleCos angleSin : ℚ) :
    ∀ (tiles : List Tile) (p : QuadProps),
      ∃ result, circleLoop glCoordMatrix translate anchor angleCos angleSin tiles p
        = some result := by
  intro tiles
  induction tiles with
  | nil => intro p; exact ⟨([], p), rfl⟩
  | cons t ts ih =>
      intro p
      obtain ⟨⟨calls, p2⟩, h1⟩ :=
        circleTile_total glCoordMatrix translate anchor angleCos angleSin t p
      obtain ⟨⟨calls2, p3⟩, h2⟩ := ih p2
      exact ⟨(calls ++ calls2, p3), by simp [circleLoop, h1, h2]⟩

/-- C3: during each packing step the four floats of source record
`quadOffset + k` are copied unchanged, in field order, to scratch offset
`(batchQuadIdx + k) * 4`; afterwards `batchQuadIdx` and `quadOffset` have
each advanced by `batchSize` (with `batchQuadIdx` reset to 0 when the
batch filled up and was flushed); and across a tile's batches every circle
of the array is copied exactly once. -/
theorem packing_step_copies_and_advances
    (glCoordMatrix : Mat4) (translate : ℚ × ℚ) (anchor : TranslateAnchor)
    (angleCos angleSin : ℚ) (tile : Tile) (bucket : Bucket) (props : QuadProps)
    (hb : tile.bucket = some bucket) :
    (∀ qIdx b count p, b + count ≤ maxQuadsPerDrawCall →
      (copyLoop bucket.circleF32 qIdx b count p).2 = b + count ∧
      ∀ k c, k < count → c < 4 →
        (copyLoop bucket.circleF32 qIdx b count p).1 ((b + k) * 4 + c)
          = bucket.circleF32 ((qIdx + k) * 4 + c)) ∧
    (∀ bt bit fuel quadOffset b p acc, quadOffset < bucket.circleLen →
      packLoop bucket.circleF32 bucket.circleLen bt bit (fuel + 1) quadOffset b p acc
        = (if b + min (bucket.circleLen - quadOffset) (maxQuadsPerDrawCall - b)
              = maxQuadsPerDrawCall then
            packLoop bucket.circleF32 bucket.circleLen bt bit fuel
              (quadOffset + min (bucket.circleLen - quadOffset) (maxQuadsPerDrawCall - b)) 0
              (copyLoop bucket.circleF32 quadOffset b
                (min (bucket.circleLen - quadOffset) (maxQuadsPerDrawCall - b)) p).1
              (acc ++ [mkDraw bt bit (copyLoop bucket.circleF32 quadOffset b
                (min (bucket.circleLen - quadOffset) (maxQuadsPerDrawCall - b)) p).1
                maxQuadsPerDrawCall])
          else
            packLoop bucket.circleF32 bucket.circleLen bt bit fuel
              (quadOffset + min (bucket.circleLen - quadOffset) (maxQuadsPerDrawCall - b))
              (b + min (bucket.circleLen - quadOffset) (maxQuadsPerDrawCall - b))
              (copyLoop bucket.circleF32 quadOffset b
                (min (bucket.circleLen - quadOffset) (maxQuadsPerDrawCall - b)) p).1
              acc)) ∧
    (∃ calls props2,
      circleTile glCoordMatrix translate anchor angleCos angleSin tile props
        = some (calls, props2) ∧
      (calls.map DrawCall.quadCount).sum = bucket.circleLen ∧
      ∀ q, q < bucket.circleLen → ∃ hj : q / 64 < calls.length,
        q % 64 < (calls.get ⟨q / 64, hj⟩).quadCount ∧
        ∀ c, c < 4 → (calls.get ⟨q / 64, hj⟩).quadProps ((q % 64) * 4 + c)
          = bucket.circleF32 (q * 4 + c)) := by
  have h64 : maxQuadsPerDrawCall = 64 := rfl
  refine ⟨?_, ?_, ?_⟩
  · intro qIdx b count p hbc
    exact ⟨copyLoop_batchQuadIdx bucket.circleF32 count qIdx b p,
      fun k c hk hc => copyLoop_read_copied bucket.circleF32 count qIdx b p k c
        (by omega) hk hc⟩
  · intro bt bit fuel quadOffset b p acc hq
    rw [packLoop_step _ _ _ _ _ _ _ _ _ hq, copyLoop_batchQuadIdx]
  · obtain ⟨calls, props2, heq, hlen, _, hidx, _⟩ :=
      circleTile_spec glCoordMatrix translate anchor angleCos angleSin tile bucket props hb
    have hmap := quadCount_map_eq bucket.circleLen calls hlen (fun j hj => (hidx j hj).1)
    refine ⟨calls, props2, heq, ?_, ?_⟩
    · rw [hmap]
      by_cases hr : bucket.circleLen % 64 = 0 <;>
        simp [hr, List.sum_replicate, smul_eq_mul] <;> omega
    · intro q hq
      have hj : q / 64 < calls.length := by
        rw [hlen]; omega
      refine ⟨hj, ?_, ?_⟩
      · rw [(hidx (q / 64) hj).1]
        omega
      · intro c hc
        have hk : q % 64 < (calls.get ⟨q / 64, hj⟩).quadCount := by
          rw [(hidx (q / 64) hj).1]
          omega
        have h5 := (hidx (q / 64) hj).2 (q % 64) c hk hc
        have h6 : 64 * (q / 64) + q % 64 = q := by omega
        rw [h6] at h5
        exact h5

/-- Witness for C3 at the 130-circle tile plus one concrete copy step and
one concrete loop step. -/
theorem packing_step_copies_and_advances_witness :
    tileW.bucket = some bucketW ∧
    (3 + 2 ≤ maxQuadsPerDrawCall ∧
      (copyLoop bucketW.circleF32 5 3 2 qpZero).2 = 3 + 2) ∧
    (∃ calls props2,
      circleTile mat4id (0, 0) TranslateAnchor.map 1 0 tileW qpZero
        = some (calls, props2) ∧
      (calls.map DrawCall.quadCount).sum = bucketW.circleLen ∧
      ∀ q, q < bucketW.circleLen → ∃ hj : q / 64 < calls.length,
        q % 64 < (calls.get ⟨q / 64, hj⟩).quadCount ∧
        ∀ c, c < 4 → (calls.get ⟨q / 64, hj⟩).quadProps ((q % 64) * 4 + c)
          = bucketW.circleF32 (q * 4 + c)) :=
  ⟨rfl,
   ⟨by decide,
    ((packing_step_copies_and_advances mat4id (0, 0) TranslateAnchor.map 1 0
      tileW bucketW qpZero rfl).1 5 3 2 qpZero (by decide)).1⟩,
   (packing_step_copies_and_advances mat4id (0, 0) TranslateAnchor.map 1 0
      tileW bucketW qpZero rfl).2.2⟩

/-- C5: every batch flushed by the circle path uploads a quad-properties
region of exactly `batchQuadIdx` quads (`batchQuadIdx * 4` floats), and the
draw call window covers exactly `batchQuadIdx * 4` vertices and
`batchQuadIdx * 2` triangles. -/
theorem batch_upload_region_and_window
    (glCoordMatrix : Mat4) (translate : ℚ × ℚ) (anchor : TranslateAnchor)
    (angleCos angleSin : ℚ) (tile : Tile) (bucket : Bucket) (props : QuadProps)
    (hb : tile.bucket = some bucket) :
    ∃ calls props2,
      circleTile glCoordMatrix translate anchor angleCos angleSin tile props
        = some (calls, props2) ∧
      ∀ cl ∈ calls,
        cl.vertexLength = cl.quadCount * 4 ∧
        cl.primitiveLength = cl.quadCount * 2 ∧
        (uploadedQuadRegion cl).length = cl.quadCount * 4 ∧
        cl.quadCount ≤ maxQuadsPerDrawCall := by
  obtain ⟨calls, props2, heq, _, hmem, _, _⟩ :=
    circleTile_spec glCoordMatrix translate anchor angleCos angleSin tile bucket props hb
  refine ⟨calls, props2, heq, fun cl hcl => ?_⟩
  obtain ⟨_, _, h3, h4, h5⟩ := hmem cl hcl
  have h64 : maxQuadsPerDrawCall = 64 := rfl
  exact ⟨h3, h4, by simp [uploadedQuadRegion], by omega⟩

/-- Witness for C5 at the 130-circle tile. -/
theorem batch_upload_region_and_window_witness :
    tileW.bucket = some bucketW ∧
    ∃ calls props2,
      circleTile mat4id (0, 0) TranslateAnchor.map 1 0 tileW qpZero
        = some (calls, props2) ∧
      ∀ cl ∈ calls,
        cl.vertexLength = cl.quadCount * 4 ∧
        cl.primitiveLength = cl.quadCount * 2 ∧
        (uploadedQuadRegion cl).length = cl.quadCount * 4 ∧
        cl.quadCount ≤ maxQuadsPerDrawCall :=
  ⟨rfl, batch_upload_region_and_window mat4id (0, 0) TranslateAnchor.map 1 0
    tileW bucketW qpZero rfl⟩

/-- C7: at every point of the circle path's execution the in-flight batch
holds at most `maxQuadsPerDrawCall = 64` quads: every flushed or leftover
batch has `quadCount ≤ 64`, and the copy loop, which is only ever entered
with `batchQuadIdx + batchSize ≤ 64`, keeps `batchQuadIdx` within the
capacity. -/
theorem batch_never_exceeds_capacity
    (glCoordMatrix : Mat4) (translate : ℚ × ℚ) (anchor : TranslateAnchor)
    (angleCos angleSin : ℚ) (tile : Tile) (bucket : Bucket) (props : QuadProps)
    (hb : tile.bucket = some bucket) :
    (∃ calls props2,
      circleTile glCoordMatrix translate anchor angleCos angleSin tile props
        = some (calls, props2) ∧
      ∀ cl ∈ calls, cl.quadCount ≤ maxQuadsPerDrawCall) ∧
    (∀ qIdx b count p, b + count ≤ maxQuadsPerDrawCall →
      (copyLoop bucket.circleF32 qIdx b count p).2 ≤ maxQuadsPerDrawCall) := by
  constructor
  · obtain ⟨calls, props2, heq, _, hmem, _, _⟩ :=
      circleTile_spec glCoordMatrix translate anchor angleCos angleSin tile bucket props hb
    refine ⟨calls, props2, heq, fun cl hcl => ?_⟩
    have h5 := (hmem cl hcl).2.2.2.2
    have h64 : maxQuadsPerDrawCall = 64 := rfl
    omega
  · intro qIdx b count p hbc
    rw [copyLoop_batchQuadIdx]
    exact hbc

/-- Witness for C7 at the 130-circle tile and one concrete copy call. -/
theorem batch_never_exceeds_capacity_witness :
    tileW.bucket = some bucketW ∧
    (∃ calls props2,
      circleTile mat4id (0, 0) TranslateAnchor.map 1 0 tileW qpZero
        = some (calls, props2) ∧
      ∀ cl ∈ calls, cl.quadCount ≤ maxQuadsPerDrawCall) ∧
    (3 + 2 ≤ maxQuadsPerDrawCall ∧
      (copyLoop bucketW.circleF32 0 3 2 qpZero).2 ≤ maxQuadsPerDrawCall) :=
  ⟨rfl,
   (batch_never_exceeds_capacity mat4id (0, 0) TranslateAnchor.map 1 0
     tileW bucketW qpZero rfl).1,
   ⟨by decide,
    (batch_never_exceeds_capacity mat4id (0, 0) TranslateAnchor.map 1 0
      tileW bucketW qpZero rfl).2 0 3 2 qpZero (by decide)⟩⟩

/-- C8: a missing bucket, a missing collision-box buffer set, or an empty
collision-circle array makes the corresponding path silently skip the tile
with zero draw calls and an unchanged scratch buffer, and the circle path
always returns a result (no failure reaches the caller; all the embedded
functions are total). -/
theorem missing_data_skipped_silently (glCoordMatrix : Mat4) (translate : ℚ × ℚ)
    (anchor : TranslateAnchor) (angleCos angleSin : ℚ) (isText : Bool)
    (props : QuadProps) :
    (∀ tile, tile.bucket = none →
      circleTile glCoordMatrix translate anchor angleCos angleSin tile props
        = some ([], props) ∧
      boxTile translate anchor angleCos angleSin isText tile = none) ∧
    (∀ tile bucket, tile.bucket = some bucket →
      (if isText then bucket.textCollisionBox else bucket.iconCollisionBox) = none →
      boxTile translate anchor angleCos angleSin isText tile = none) ∧
    (∀ tile bucket, tile.bucket = some bucket → bucket.circleLen = 0 →
      circleTile glCoordMatrix translate anchor angleCos angleSin tile props
        = some ([], props)) ∧
    (∀ tile, ∃ result,
      circleTile glCoordMatrix translate anchor angleCos angleSin tile props
        = some result) := by
  refine ⟨?_, ?_, ?_, ?_⟩
  · intro tile h
    exact ⟨by simp [circleTile, h], by simp [boxTile, h]⟩
  · intro tile bucket hbk hbuf
    simp [boxTile, hbk, hbuf]
  · intro tile bucket hbk h0
    simp [circleTile, hbk, h0]
  · intro tile
    exact circleTile_total glCoordMatrix translate anchor angleCos angleSin tile props

/-- Witness for C8 at a bucketless tile, a tile without icon boxes and an
arbitrary tile. -/
theorem missing_data_skipped_silently_witness :
    (tileN.bucket = none ∧
      circleTile mat4id (0, 0) TranslateAnchor.map 1 0 tileN qpZero = some ([], qpZero) ∧
      boxTile (0, 0) TranslateAnchor.map 1 0 true tileN = none) ∧
    (tileW.bucket = some bucketW ∧
      (if false then bucketW.textCollisionBox else bucketW.iconCollisionBox) = none ∧
      boxTile (0, 0) TranslateAnchor.map 1 0 false tileW = none) ∧
    (∃ result, circleTile mat4id (0, 0) TranslateAnchor.map 1 0 tileC qpZero
      = some result) :=
  ⟨⟨rfl, (missing_data_skipped_silently mat4id (0, 0) TranslateAnchor.map 1 0 true
      qpZero).1 tileN rfl⟩,
   ⟨rfl, rfl, (missing_data_skipped_silently mat4id (0, 0) TranslateAnchor.map 1 0 false
      qpZero).2.1 tileW bucketW rfl rfl⟩,
   (missing_data_skipped_silently mat4id (0, 0) TranslateAnchor.map 1 0 true
      qpZero).2.2.2 tileC⟩

/-- C9: the circle-path packing loop terminates for every circle-array
length (the model's fuel `n` is always enough, so the pass always returns
a result), because at the top of every iteration `batchQuadIdx < 64` and
hence `batchSize = min (n - quadOffset) (64 - batchQuadIdx) ≥ 1` moves
`quadOffset` strictly toward `n`. -/
theorem packing_loop_terminates (glCoordMatrix : Mat4) (translate : ℚ × ℚ)
    (anchor : TranslateAnchor) (angleCos angleSin : ℚ) (props : QuadProps) :
    (∀ tile, ∃ result,
      circleTile glCoordMatrix translate anchor angleCos angleSin tile props
        = some result) ∧
    (∀ (tiles : List Tile) p, ∃ result,
      circleLoop glCoordMatrix translate anchor angleCos angleSin tiles p
        = some result) ∧
    (∀ n quadOffset b, quadOffset < n → b < maxQuadsPerDrawCall →
      1 ≤ min (n - quadOffset) (maxQuadsPerDrawCall - b)) := by
  refine ⟨?_, ?_, ?_⟩
  · intro tile
    exact circleTile_total glCoordMatrix translate anchor angleCos angleSin tile props
  · exact circleLoop_total glCoordMatrix translate anchor angleCos angleSin
  · intro n quadOffset b h1 h2
    have h64 : maxQuadsPerDrawCall = 64 := rfl
    omega

/-- Witness for C9 at concrete tiles and a concrete loop state. -/
theorem packing_loop_terminates_witness :
    (∃ result, circleTile mat4id (0, 0) TranslateAnchor.map 1 0 tileW qpZero
      = some result) ∧
    (∃ result, circleLoop mat4id (0, 0) TranslateAnchor.map 1 0 [tileW, tileN, tileC]
      qpZero = some result) ∧
    (5 < 130 ∧ 3 < maxQuadsPerDrawCall ∧
      1 ≤ min (130 - 5) (maxQuadsPerDrawCall - 3)) :=
  ⟨(packing_loop_terminates mat4id (0, 0) TranslateAnchor.map 1 0 qpZero).1 tileW,
   (packing_loop_terminates mat4id (0, 0) TranslateAnchor.map 1 0 qpZero).2.1
     [tileW, tileN, tileC] qpZero,
   ⟨by decide, by decide,
    (packing_loop_terminates mat4id (0, 0) TranslateAnchor.map 1 0 qpZero).2.2 130 5 3
      (by decide) (by decide)⟩⟩

/-- The entrywise `gl-matrix` product is ordinary matrix multiplication. -/
theorem mat4mul_eq_mul (a b : Mat4) : mat4mul a b = a * b := by
  ext i j
  rw [Matrix.mul_apply, Fin.sum_univ_four]
  rfl

/-- C4: the re-projection matrix is computed as
`placementInvProjMatrix × glCoordMatrix × placementViewportMatrix` with
that exact multiplication order and left associativity, and it is a pure
function of its matrix inputs: two runs with identical inputs yield an
identical composite matrix. -/
theorem reprojection_matrix_order_and_purity (bucket : Bucket) (glCoordMatrix : Mat4) :
    batchInvTransformOf bucket glCoordMatrix
      = bucket.placementInvProjMatrix * glCoordMatrix * bucket.placementViewportMatrix ∧
    ∀ bucket2 glCoordMatrix2,
      bucket2.placementInvProjMatrix = bucket.placementInvProjMatrix →
      bucket2.placementViewportMatrix = bucket.placementViewportMatrix →
      glCoordMatrix2 = glCoordMatrix →
      batchInvTransformOf bucket2 glCoordMatrix2
        = batchInvTransformOf bucket glCoordMatrix := by
  constructor
  · rw [batchInvTransformOf, mat4mul_eq_mul, mat4mul_eq_mul]
  · intro bucket2 glCoordMatrix2 h1 h2 h3
    rw [batchInvTransformOf, batchInvTransformOf, h1, h2, h3]

/-- Witness for C4 at a concrete bucket and coordinate matrix. -/
theorem reprojection_matrix_order_and_purity_witness :
    (batchInvTransformOf bucketW mat4id
      = bucketW.placementInvProjMatrix * mat4id * bucketW.placementViewportMatrix) ∧
    batchInvTransformOf bucketW mat4id = batchInvTransformOf bucketW mat4id :=
  ⟨(reprojection_matrix_order_and_purity bucketW mat4id).1,
   (reprojection_matrix_order_and_purity bucketW mat4id).2 bucketW mat4id rfl rfl rfl⟩

/-- All circle draw calls of a tile carry the (possibly translated) tile
position matrix as their batch transform. -/
theorem circleTile_transforms (glCoordMatrix : Mat4) (translate : ℚ × ℚ)
    (anchor : TranslateAnchor) (angleCos angleSin : ℚ) (tile : Tile) (bucket : Bucket)
    (props : QuadProps) (hb : tile.bucket = some bucket) :
    (circleTile glCoordMatrix translate anchor angleCos angleSin tile props).map
        (fun r => r.1.map DrawCall.transform)
      = some (List.replicate ((bucket.circleLen + 63) / 64)
          (tilePosMatrix tile translate anchor angleCos angleSin)) := by
  obtain ⟨calls, props2, heq, hlen, hmem, _, _⟩ :=
    circleTile_spec glCoordMatrix translate anchor angleCos angleSin tile bucket props hb
  have hmap : (some (calls, props2)).map
      (fun r : List DrawCall × QuadProps => r.1.map DrawCall.transform)
      = some (calls.map DrawCall.transform) := rfl
  rw [heq, hmap]
  congr 1
  refine List.eq_replicate_iff.mpr ⟨by simp [hlen], ?_⟩
  intro x hx
  obtain ⟨cl, hcl, rfl⟩ := List.mem_map.mp hx
  exact (hmem cl hcl).1

/-- All circle draw calls of a tile carry the translate-independent
re-projection matrix as their inverse transform. -/
theorem circleTile_invTransforms (glCoordMatrix : Mat4) (translate : ℚ × ℚ)
    (anchor : TranslateAnchor) (angleCos angleSin : ℚ) (tile : Tile) (bucket : Bucket)
    (props : QuadProps) (hb : tile.bucket = some bucket) :
    (circleTile glCoordMatrix translate anchor angleCos angleSin tile props).map
        (fun r => r.1.map DrawCall.invTransform)
      = some (List.replicate ((bucket.circleLen + 63) / 64)
          (batchInvTransformOf bucket glCoordMatrix)) := by
  obtain ⟨calls, props2, heq, hlen, hmem, _, _⟩ :=
    circleTile_spec glCoordMatrix translate anchor angleCos angleSin tile bucket props hb
  have hmap : (some (calls, props2)).map
      (fun r : List DrawCall × QuadProps => r.1.map DrawCall.invTransform)
      = some (calls.map DrawCall.invTransform) := rfl
  rw [heq, hmap]
  congr 1
  refine List.eq_replicate_iff.mpr ⟨by simp [hlen], ?_⟩
  intro x hx
  obtain ⟨cl, hcl, rfl⟩ := List.mem_map.mp hx
  exact (hmem cl hcl).2.1

/-- Counterexample to C6: with a non-zero viewport-anchored translate the
box path's posMatrix changes, but the circle path's batchTransform changes
with it — the two runs do not produce identical circle batch transforms,
contrary to the claim (the circle path at lines 113–116 of the source runs
the very same `translatePosMatrix` as the box path). -/
theorem viewport_translate_cex :
    ((boxTile (1, 0) TranslateAnchor.viewport 1 0 true tileC).map BoxDrawCall.posMatrix
      ≠ (boxTile (0, 0) TranslateAnchor.viewport 1 0 true tileC).map
          BoxDrawCall.posMatrix) ∧
    ((circleTile mat4id (1, 0) TranslateAnchor.viewport 1 0 tileC qpZero).map
        (fun r => r.1.map DrawCall.transform)
      ≠ (circleTile mat4id (0, 0) TranslateAnchor.viewport 1 0 tileC qpZero).map
        (fun r => r.1.map DrawCall.transform)) := by
  have hval1 : tilePosMatrix tileC (1, 0) TranslateAnchor.viewport 1 0 0 3 = 1 := by
    norm_num [tilePosMatrix, translatePosMatrix, tileC, mat4id, mat4mul, translationMat,
      Matrix.of_apply, Fin.ext_iff] ; decide
  have hval2 : tilePosMatrix tileC (0, 0) TranslateAnchor.viewport 1 0 0 3 = 0 := by
    norm_num [tilePosMatrix, tileC, mat4id, Matrix.of_apply, Fin.ext_iff] ; decide
  have hT : tilePosMatrix tileC (1, 0) TranslateAnchor.viewport 1 0
      ≠ tilePosMatrix tileC (0, 0) TranslateAnchor.viewport 1 0 := by
    intro h
    have h03 := congrFun (congrFun h 0) 3
    rw [hval1, hval2] at h03
    exact one_ne_zero h03
  constructor
  · have hbox1 : boxTile (1, 0) TranslateAnchor.viewport 1 0 true tileC
        = some ⟨tilePosMatrix tileC (1, 0) TranslateAnchor.viewport 1 0, 2⟩ := rfl
    have hbox2 : boxTile (0, 0) TranslateAnchor.viewport 1 0 true tileC
        = some ⟨tilePosMatrix tileC (0, 0) TranslateAnchor.viewport 1 0, 2⟩ := rfl
    rw [hbox1, hbox2]
    intro h
    have h2 : some (tilePosMatrix tileC (1, 0) TranslateAnchor.viewport 1 0)
        = some (tilePosMatrix tileC (0, 0) TranslateAnchor.viewport 1 0) := h
    exact hT (Option.some.inj h2)
  · have hc1 := circleTile_transforms mat4id (1, 0) TranslateAnchor.viewport 1 0
      tileC bucketC qpZero rfl
    have hc2 := circleTile_transforms mat4id (0, 0) TranslateAnchor.viewport 1 0
      tileC bucketC qpZero rfl
    simp only [show (bucketC.circleLen + 63) / 64 = 1 from rfl,
      List.replicate_one] at hc1 hc2
    rw [hc1, hc2]
    intro h
    simp only [Option.some.injEq, List.cons.injEq, and_true] at h
    exact hT h

/-- C6 (amended): a non-zero translate offset changes the box path's
posMatrix and the circle path's batchTransform in exactly the same way —
both paths run the tile position matrix through the same translation —
while the circle path's batchInvTransform never depends on the translate
offset. -/
theorem viewport_translate_amended (glCoordMatrix : Mat4) (translate : ℚ × ℚ)
    (anchor : TranslateAnchor) (angleCos angleSin : ℚ) (tile : Tile) (bucket : Bucket)
    (props : QuadProps) (isText : Bool) (hb : tile.bucket = some bucket) :
    (∀ box, boxTile translate anchor angleCos angleSin isText tile = some box →
      box.posMatrix = tilePosMatrix tile translate anchor angleCos angleSin) ∧
    (∀ calls props2,
      circleTile glCoordMatrix translate anchor angleCos angleSin tile props
        = some (calls, props2) →
      ∀ cl ∈ calls,
        cl.transform = tilePosMatrix tile translate anchor angleCos angleSin) ∧
    (∀ translate2 : ℚ × ℚ,
      (circleTile glCoordMatrix translate anchor angleCos angleSin tile props).map
          (fun r => r.1.map DrawCall.invTransform)
        = (circleTile glCoordMatrix translate2 anchor angleCos angleSin tile props).map
          (fun r => r.1.map DrawCall.invTransform)) := by
  obtain ⟨calls0, props0, heq, hlen, hmem, _, _⟩ :=
    circleTile_spec glCoordMatrix translate anchor angleCos angleSin tile bucket props hb
  refine ⟨?_, ?_, ?_⟩
  · intro box hbox
    rcases hbuf : (if isText then bucket.textCollisionBox else bucket.iconCollisionBox)
      with _ | buffers
    · simp [boxTile, hb, hbuf] at hbox
    · simp only [boxTile, hb, hbuf] at hbox
      cases hbox
      rfl
  · intro calls props2 h
    have h2 := heq.symm.trans h
    simp only [Option.some.injEq, Prod.mk.injEq] at h2
    obtain ⟨rfl, rfl⟩ := h2
    exact fun cl hcl => (hmem cl hcl).1
  · intro translate2
    rw [circleTile_invTransforms glCoordMatrix translate anchor angleCos angleSin
        tile bucket props hb,
      circleTile_invTransforms glCoordMatrix translate2 anchor angleCos angleSin
        tile bucket props hb]

/-- Witness for the amended C6 at a concrete tile with a non-zero viewport
translate against the zero-translate run. -/
theorem viewport_translate_amended_witness :
    tileC.bucket = some bucketC ∧
    (circleTile mat4id (1, 0) TranslateAnchor.viewport 1 0 tileC qpZero).map
        (fun r => r.1.map DrawCall.invTransform)
      = (circleTile mat4id (0, 0) TranslateAnchor.viewport 1 0 tileC qpZero).map
        (fun r => r.1.map DrawCall.invTransform) :=
  ⟨rfl, (viewport_translate_amended mat4id (1, 0) TranslateAnchor.viewport 1 0
    tileC bucketC qpZero true rfl).2.2 (0, 0)⟩

end CollisionDebug
